import Mathlib

/-!
Verification of the cordex data-access engine (`src/repository/index.ts`,
given here as `src/unnamed/part_006`, together with the sibling copies in
`src/src/`).  The TypeScript source is shallowly embedded: the in-memory
document tree, the write batcher, the cache layer and the query engine are
translated into executable Lean definitions, and the specification claims
are settled as theorems about those definitions.

Conventions of the embedding:
* JS arrays become `List`; `Array.prototype.slice(s, e)` becomes
  `(l.drop s).take (e - s)`.
* JS `Map` becomes an association list with unique keys; `Map.set`
  replaces in place (preserving insertion order) or appends.
* Machine integers and `Date.now()` timestamps become `Nat`.
* JS string comparison (`<`/`>` on ISO timestamp strings, code-unit
  lexicographic) is modelled by lexicographic comparison of the
  character codes of `String.data`, and `String.prototype.startsWith`
  by `List.isPrefixOf` on `String.data`; these evaluate in the kernel,
  unlike the byte-based core `String` order.
* Fallible paths return `Except`; promise resolution/rejection of a
  pending write becomes an `Except` value per queued item.
-/

namespace Cordex

/-- An entity record.  The engine treats records opaquely; the two
structural capabilities the source recognises are an `id : string` field
(Identified) and a `timestamp : string` field (Purgeable), so the model
record carries both together with an opaque payload `val`. -/
structure EntityRec where
  id : String
  timestamp : String
  val : Nat
deriving DecidableEq, Repr

/-- Query options, from `QueryOptions<T>`: an optional filter predicate,
an optional JS comparator (negative means "first argument sorts first"),
an optional limit and an optional offset. -/
structure QueryOptions (α : Type) where
  filter : Option (α → Bool) := none
  sort : Option (α → α → Int) := none
  limit : Option Nat := none
  offset : Option Nat := none

/-- Query result envelope, from `QueryResult<T>`; `executionTimeMs` is
wall-clock observability and is not modelled. -/
structure QueryResult (α : Type) where
  entities : List α
  totalCount : Nat
  hasMore : Bool
deriving DecidableEq, Repr

/-- JS `Array.prototype.slice(s, e)` for non-negative indices. -/
def jsSlice {α : Type} (l : List α) (s e : Nat) : List α :=
  (l.drop s).take (e - s)

/-- JS `Array.prototype.sort(cmp)`: a comparison-based sort driven by the
caller-supplied comparator.  Modelled as a sort placing `a` before `b`
whenever `cmp a b ≤ 0`. -/
def jsSort {α : Type} (cmp : α → α → Int) (l : List α) : List α :=
  List.insertionSort (fun a b => cmp a b ≤ 0) l

/-- `DatabaseRepository.query` (part_006 lines 451-489), applied to the
already-read full collection `l`: record `totalCount`, then filter, then
sort, then paginate. -/
def query {α : Type} (l : List α) (options : QueryOptions α) : QueryResult α :=
  let entities := l
  let totalCount := entities.length
  let entities :=
    match options.filter with
    | some f => entities.filter f
    | none => entities
  let entities :=
    match options.sort with
    | some cmp => jsSort cmp entities
    | none => entities
  let offset := options.offset.getD 0
  let entities :=
    match options.limit with
    | some lim => jsSlice entities offset (offset + lim)
    | none => if offset > 0 then entities.drop offset else entities
  { entities := entities
    totalCount := totalCount
    hasMore := options.limit.isSome && decide (offset + options.limit.getD 0 < totalCount) }

/-- C1 counterexample input: a three-record collection and a filter
matching exactly one record. -/
def c1Coll : List EntityRec :=
  [⟨"a", "", 1⟩, ⟨"b", "", 2⟩, ⟨"c", "", 3⟩]

/-- C1 counterexample options: filter keeping only `val = 1`, a comparator
on `val`, limit 10, offset 0. -/
def c1Options : QueryOptions EntityRec :=
  { filter := some (fun r => r.val == 1)
    sort := some (fun a b => (a.val : Int) - b.val)
    limit := some 10
    offset := some 0 }

/-- C1: the claim as stated is false on the code.  On the concrete
three-record collection `c1Coll` with a filter matching exactly one
record, `query` reports `totalCount = 3` — the size of the full
collection before filtering — while the number of elements of
`filter(F, fullCollection)` is `1`, so `totalCount` is not the count
after filtering. -/
theorem query_totalCount_prefilter_cex :
    (query c1Coll c1Options).totalCount = 3 ∧
    (c1Coll.filter (fun r => r.val == 1)).length = 1 ∧
    (query c1Coll c1Options).totalCount ≠
      (c1Coll.filter (fun r => r.val == 1)).length := by
  refine ⟨by decide, by decide, by decide⟩

/-- C1 (amended): for every collection, filter `F`, comparator `S`,
limit `L` and offset `O`, `query` returns the entities
`slice(O, O + L)` of `sort(S, filter(F, fullCollection))`, and its
`totalCount` field equals the number of elements of the full collection
before filtering (not the filtered count). -/
theorem query_entities_slice_totalCount_amended {α : Type}
    (l : List α) (f : α → Bool) (cmp : α → α → Int) (lim off : Nat) :
    (query l ⟨some f, some cmp, some lim, some off⟩).entities =
      ((jsSort cmp (l.filter f)).drop off).take lim ∧
    (query l ⟨some f, some cmp, some lim, some off⟩).totalCount = l.length := by
  constructor
  · show jsSlice (jsSort cmp (l.filter f)) off (off + lim) = _
    simp [jsSlice]
  · rfl

/-- Helper: removing the records kept by `p` accounts exactly for the
records failing `p`. -/
theorem length_sub_filter {α : Type} (p : α → Bool) (l : List α) :
    l.length - (l.filter p).length = (l.filter (fun a => !(p a))).length := by
  induction l with
  | nil => simp
  | cons a as ih =>
    have hle := List.length_filter_le p as
    cases h : p a <;> simp [List.filter_cons, h] <;> omega

/-- `DatabaseRepository.deleteById` (part_006 lines 411-439), applied to
the already-read collection: filter out every record whose `id` matches,
answer `false` (leaving the collection untouched) when nothing matched,
otherwise rewrite the collection to the filtered list and answer
`true`. -/
def deleteById (allItems : List EntityRec) (objectId : String) : Bool × List EntityRec :=
  let updatedItems := allItems.filter (fun item => item.id != objectId)
  if updatedItems.length = allItems.length then (false, allItems)
  else (true, updatedItems)

/-- C3: `deleteById` removes every record whose `id` field equals the
given id (duplicates included), leaves all other records unchanged in
order (the result is exactly the original collection filtered), and
returns `true` iff at least one record was removed. -/
theorem deleteById_removes_all_matches (allItems : List EntityRec) (objectId : String) :
    (deleteById allItems objectId).2 =
      allItems.filter (fun item => item.id != objectId) ∧
    ((deleteById allItems objectId).1 = true ↔ ∃ it ∈ allItems, it.id = objectId) := by
  have hsub := List.filter_sublist (p := fun item => item.id != objectId) allItems
  constructor
  · unfold deleteById
    by_cases h : (allItems.filter (fun item => item.id != objectId)).length = allItems.length
    · simp only [h, if_pos rfl]
      exact (hsub.eq_of_length h).symm
    · simp [h]
  · unfold deleteById
    by_cases h : (allItems.filter (fun item => item.id != objectId)).length = allItems.length
    · simp only [h, if_pos rfl]
      constructor
      · intro hfalse
        exact absurd hfalse (by simp)
      · intro ⟨it, hit, hid⟩
        have heq : allItems.filter (fun item => item.id != objectId) = allItems :=
          hsub.eq_of_length h
        have := List.filter_eq_self.mp heq it hit
        simp [hid] at this
    · simp only [h, if_neg h]
      constructor
      · intro _
        by_contra hno
        push_neg at hno
        exact h (congrArg List.length (List.filter_eq_self.mpr (by
          intro a ha
          simpa using hno a ha)))
      · intro _
        simp

/-- JS `Array.prototype.findIndex`, returning `none` for `-1`. -/
def jsFindIndex {α : Type} (p : α → Bool) : List α → Option Nat
  | [] => none
  | a :: as => if p a then some 0 else (jsFindIndex p as).map (· + 1)

/-- `DatabaseRepository.storeUnique` (part_006 lines 248-290), applied to
the already-read collection: scan linearly for a record whose `id`
matches; when found, rewrite the full collection with that record
replaced in place and report an update (`true`); otherwise append the
record (via the write batcher) and report an insert (`false`). -/
def storeUnique (allItems : List EntityRec) (object : EntityRec) : Bool × List EntityRec :=
  match jsFindIndex (fun item => item.id == object.id) allItems with
  | some i => (true, allItems.set i object)
  | none => (false, allItems ++ [object])

/-- Helper: a scan that fails on every element returns no index. -/
theorem jsFindIndex_eq_none {α : Type} (p : α → Bool) (l : List α)
    (h : ∀ a ∈ l, p a = false) : jsFindIndex p l = none := by
  induction l with
  | nil => rfl
  | cons a as ih =>
    simp only [jsFindIndex, h a (by simp)]
    simp [ih (fun a ha => h a (by simp [ha]))]

/-- Helper: a scan failing on all of `l` and succeeding on `b` finds `b`
at position `l.length`. -/
theorem jsFindIndex_append_singleton {α : Type} (p : α → Bool) (l : List α) (b : α)
    (h : ∀ a ∈ l, p a = false) (hb : p b = true) :
    jsFindIndex p (l ++ [b]) = some l.length := by
  induction l with
  | nil => simp [jsFindIndex, hb]
  | cons a as ih =>
    simp only [List.cons_append, jsFindIndex, h a (by simp)]
    simp [ih (fun a ha => h a (by simp [ha]))]

/-- C6: `storeUnique` with an id not present in the collection reports an
insert (`false`) and appends, leaving exactly one record with that id;
a second `storeUnique` with the same id and a different payload reports
an update (`true`), replaces the record in place, and the collection
still holds exactly one record with that id, carrying the new payload. -/
theorem storeUnique_insert_then_update
    (allItems : List EntityRec) (object object2 : EntityRec)
    (hfresh : ∀ r ∈ allItems, r.id ≠ object.id)
    (hsame : object2.id = object.id) :
    (storeUnique allItems object).1 = false ∧
    (storeUnique allItems object).2 = allItems ++ [object] ∧
    ((allItems ++ [object]).countP (fun r => r.id == object.id)) = 1 ∧
    (storeUnique (allItems ++ [object]) object2).1 = true ∧
    (storeUnique (allItems ++ [object]) object2).2 = allItems ++ [object2] ∧
    ((allItems ++ [object2]).countP (fun r => r.id == object.id)) = 1 := by
  have hfail : ∀ r ∈ allItems, (r.id == object.id) = false := by
    intro r hr
    simpa using hfresh r hr
  have hnone := jsFindIndex_eq_none _ allItems hfail
  have hcount0 : allItems.countP (fun r => r.id == object.id) = 0 :=
    List.countP_eq_zero.mpr (by intro a ha; simp [hfail a ha])
  have hfail2 : ∀ r ∈ allItems, (r.id == object2.id) = false := by
    intro r hr
    simp [hsame, hfail r hr]
  have hfind2 := jsFindIndex_append_singleton (fun r => r.id == object2.id)
    allItems object hfail2 (by simp [hsame])
  refine ⟨?_, ?_, ?_, ?_, ?_, ?_⟩
  · simp [storeUnique, hnone]
  · simp [storeUnique, hnone]
  · simp [List.countP_append, hcount0, List.countP_cons]
  · simp [storeUnique, hfind2]
  · simp only [storeUnique, hfind2]
    simp [List.set_append]
  · simp [List.countP_append, hcount0, List.countP_cons, hsame]

/-- C6 witness: run the two `storeUnique` calls of the claim on an empty
collection with ids `"u1"` and payloads 10 then 99. -/
theorem storeUnique_insert_then_update_witness :
    ((∀ r ∈ ([] : List EntityRec), r.id ≠ "u1") ∧ ("u1" : String) = "u1") ∧
    ((storeUnique [] ⟨"u1", "", 10⟩).1 = false ∧
     (storeUnique [] ⟨"u1", "", 10⟩).2 = ([⟨"u1", "", 10⟩] : List EntityRec) ∧
     ([⟨"u1", "", 10⟩] : List EntityRec).countP (fun r => r.id == "u1") = 1 ∧
     (storeUnique [⟨"u1", "", 10⟩] ⟨"u1", "", 99⟩).1 = true ∧
     (storeUnique [⟨"u1", "", 10⟩] ⟨"u1", "", 99⟩).2 = ([⟨"u1", "", 99⟩] : List EntityRec) ∧
     ([⟨"u1", "", 99⟩] : List EntityRec).countP (fun r => r.id == "u1") = 1) :=
  ⟨⟨by decide, rfl⟩,
   storeUnique_insert_then_update [] ⟨"u1", "", 10⟩ ⟨"u1", "", 99⟩ (by decide) rfl⟩

/-- Lexicographic order on character-code lists, the logical content of
the JS `<` operator on strings (code-unit comparison). -/
def lexLtb : List Char → List Char → Bool
  | _, [] => false
  | [], _ :: _ => true
  | a :: as, b :: bs =>
    if a.val < b.val then true
    else if b.val < a.val then false
    else lexLtb as bs

/-- JS string comparison `a < b`. -/
def strLtJs (a b : String) : Bool := lexLtb a.data b.data

/-- JS string comparison `a > b`, used by the source on ISO timestamp
strings (`itemTimestamp > cutoffTimestamp`). -/
def strGtJs (a b : String) : Bool := strLtJs b a

/-- Helper: the JS string order is irreflexive. -/
theorem lexLtb_self_eq_false (l : List Char) : lexLtb l l = false := by
  induction l with
  | nil => rfl
  | cons a as ih => simp [lexLtb, ih]

/-- `DatabaseRepository.purgeStaleItems` (part_006 lines 346-378),
applied to the already-read collection, with the cutoff modelled as the
ISO string for `now − maxAgeHours`: keep the records whose timestamp
compares strictly greater than the cutoff, rewrite the collection via
`replaceAll` only when something was purged, and return the number of
purged records. -/
def purgeStaleItems (allItems : List EntityRec) (cutoffTimestamp : String) :
    Nat × List EntityRec :=
  let freshItems := allItems.filter (fun item => strGtJs item.timestamp cutoffTimestamp)
  let purgedCount := allItems.length - freshItems.length
  if 0 < purgedCount then (purgedCount, freshItems) else (purgedCount, allItems)

/-- C7: `purgeStaleItems` keeps exactly the records whose timestamp is
strictly newer than the cutoff `now − maxAgeHours`, returns the number
of records removed, and purges (does not retain) a record whose
timestamp equals the cutoff exactly. -/
theorem purgeStaleItems_strict_cutoff (allItems : List EntityRec) (cutoff : String) :
    (purgeStaleItems allItems cutoff).2 =
      allItems.filter (fun item => strGtJs item.timestamp cutoff) ∧
    (purgeStaleItems allItems cutoff).1 =
      (allItems.filter (fun item => !(strGtJs item.timestamp cutoff))).length ∧
    ∀ it ∈ allItems, it.timestamp = cutoff →
      it ∉ (purgeStaleItems allItems cutoff).2 := by
  have hcount := length_sub_filter (fun item => strGtJs item.timestamp cutoff) allItems
  have hfresh :
      (purgeStaleItems allItems cutoff).2 =
        allItems.filter (fun item => strGtJs item.timestamp cutoff) := by
    unfold purgeStaleItems
    by_cases h :
        0 < allItems.length -
          (allItems.filter (fun item => strGtJs item.timestamp cutoff)).length
    · simp [h]
    · simp only [h, if_neg h]
      have hle := List.length_filter_le (fun item => strGtJs item.timestamp cutoff) allItems
      have heqlen :
          (allItems.filter (fun item => strGtJs item.timestamp cutoff)).length =
            allItems.length := by omega
      exact ((List.filter_sublist allItems).eq_of_length heqlen).symm
  refine ⟨hfresh, ?_, ?_⟩
  · unfold purgeStaleItems
    by_cases h :
        0 < allItems.length -
          (allItems.filter (fun item => strGtJs item.timestamp cutoff)).length
    · simpa [h] using hcount
    · simpa [h] using hcount
  · intro it hit hts hmem
    rw [hfresh] at hmem
    have := (List.mem_filter.mp hmem).2
    rw [hts] at this
    simp [strGtJs, strLtJs, lexLtb_self_eq_false] at this

/-- C7 witness: a two-record collection where one timestamp equals the
cutoff exactly; the boundary record is purged and counted. -/
theorem purgeStaleItems_strict_cutoff_witness :
    (purgeStaleItems
        [⟨"a", "2024-01-01T00:00:00.000Z", 1⟩, ⟨"b", "2024-01-02T00:00:00.000Z", 2⟩]
        "2024-01-01T00:00:00.000Z").2 =
      ([⟨"a", "2024-01-01T00:00:00.000Z", 1⟩,
        ⟨"b", "2024-01-02T00:00:00.000Z", 2⟩] : List EntityRec).filter
        (fun item => strGtJs item.timestamp "2024-01-01T00:00:00.000Z") ∧
    (purgeStaleItems
        [⟨"a", "2024-01-01T00:00:00.000Z", 1⟩, ⟨"b", "2024-01-02T00:00:00.000Z", 2⟩]
        "2024-01-01T00:00:00.000Z").1 =
      (([⟨"a", "2024-01-01T00:00:00.000Z", 1⟩,
         ⟨"b", "2024-01-02T00:00:00.000Z", 2⟩] : List EntityRec).filter
        (fun item => !(strGtJs item.timestamp "2024-01-01T00:00:00.000Z"))).length ∧
    ∀ it ∈ ([⟨"a", "2024-01-01T00:00:00.000Z", 1⟩,
             ⟨"b", "2024-01-02T00:00:00.000Z", 2⟩] : List EntityRec),
      it.timestamp = "2024-01-01T00:00:00.000Z" →
      it ∉ (purgeStaleItems
        [⟨"a", "2024-01-01T00:00:00.000Z", 1⟩, ⟨"b", "2024-01-02T00:00:00.000Z", 2⟩]
        "2024-01-01T00:00:00.000Z").2 :=
  purgeStaleItems_strict_cutoff
    [⟨"a", "2024-01-01T00:00:00.000Z", 1⟩, ⟨"b", "2024-01-02T00:00:00.000Z", 2⟩]
    "2024-01-01T00:00:00.000Z"

/-- Association-list lookup, modelling JS object property access and
`Map.get`. -/
def lookupA {v : Type} (k : String) : List (String × v) → Option v
  | [] => none
  | (k2, x) :: rest => if k = k2 then some x else lookupA k rest

/-- Association-list upsert, modelling JS object property assignment and
`Map.set`: an existing key is updated in place (insertion order kept), a
new key is appended at the end. -/
def updateA {v : Type} (k : String) (f : Option v → v) : List (String × v) → List (String × v)
  | [] => [(k, f none)]
  | (k2, x) :: rest =>
    if k = k2 then (k2, f (some x)) :: rest else (k2, x) :: updateA k f rest

/-- Helper: reading back the updated key. -/
theorem lookupA_updateA_self {v : Type} (k : String) (f : Option v → v)
    (l : List (String × v)) : lookupA k (updateA k f l) = some (f (lookupA k l)) := by
  induction l with
  | nil => simp [lookupA, updateA]
  | cons kv rest ih =>
    obtain ⟨k2, x⟩ := kv
    by_cases h : k = k2
    · subst h
      simp [lookupA, updateA]
    · simp [lookupA, updateA, h, ih]

/-- Helper: updating one key leaves other keys unread. -/
theorem lookupA_updateA_ne {v : Type} (k k2 : String) (f : Option v → v)
    (l : List (String × v)) (h : k2 ≠ k) :
    lookupA k2 (updateA k f l) = lookupA k2 l := by
  induction l with
  | nil => simp [lookupA, updateA, h]
  | cons kv rest ih =>
    obtain ⟨k3, x⟩ := kv
    by_cases h3 : k = k3
    · subst h3
      simp [lookupA, updateA, h]
    · simp only [updateA, if_neg h3]
      by_cases h2 : k2 = k3 <;> simp [lookupA, h2, ih]

/-- One queued write request, from `PendingWrite`: target collection key,
storage key, and the record to append.  The `resolve`/`reject` callbacks
of the source are modelled by the per-item `Except` results returned by
`performBatchWrite`. -/
structure WriteReq where
  collectionKey : String
  storageKey : String
  data : EntityRec
deriving DecidableEq, Repr

/-- One collection key's slot of the document tree: storage key → ordered
record list. -/
abbrev CollMap := List (String × List EntityRec)

/-- The in-memory document tree (`dbInstance.data`): collection key →
storage key → ordered record list. -/
abbrev Tree := List (String × CollMap)

/-- Read a record list from the tree; absent levels read as empty. -/
def getColl (tree : Tree) (ck sk : String) : List EntityRec :=
  match lookupA ck tree with
  | none => []
  | some m => (lookupA sk m).getD []

/-- Overwrite a record list in the tree, lazily creating both levels, as
the source's `if (!data[ck]) data[ck] = {}` / property assignment. -/
def setColl (tree : Tree) (ck sk : String) (l : List EntityRec) : Tree :=
  updateA ck (fun m? => updateA sk (fun _ => l) (m?.getD [])) tree

/-- Apply one queued write to the tree: push the record at the end of its
(collectionKey, storageKey) list (part_006 lines 63-75). -/
def applyWrite (tree : Tree) (w : WriteReq) : Tree :=
  setColl tree w.collectionKey w.storageKey
    (getColl tree w.collectionKey w.storageKey ++ [w.data])

/-- Helper: reading the slot just written. -/
theorem getColl_setColl_self (tree : Tree) (ck sk : String) (l : List EntityRec) :
    getColl (setColl tree ck sk l) ck sk = l := by
  simp [getColl, setColl, lookupA_updateA_self]

/-- Helper: writing one slot leaves every other slot unchanged. -/
theorem getColl_setColl_ne (tree : Tree) (ck sk ck2 sk2 : String) (l : List EntityRec)
    (h : ¬(ck2 = ck ∧ sk2 = sk)) :
    getColl (setColl tree ck sk l) ck2 sk2 = getColl tree ck2 sk2 := by
  by_cases hck : ck2 = ck
  · subst hck
    have hsk : sk2 ≠ sk := fun hsk => h ⟨rfl, hsk⟩
    simp only [getColl, setColl, lookupA_updateA_self]
    cases hm : lookupA ck2 tree with
    | none => simp [lookupA_updateA_ne _ _ _ _ hsk, lookupA, hsk]
    | some m => simp [lookupA_updateA_ne _ _ _ _ hsk]
  · simp [getColl, setColl, lookupA_updateA_ne _ _ _ _ hck]

/-- Batching delay `BATCH_DELAY_MS` (50 ms debounce window). -/
def BATCH_DELAY_MS : Nat := 50

/-- Batch size cap `MAX_BATCH_SIZE` (100 queued items per flush). -/
def MAX_BATCH_SIZE : Nat := 100

/-- Retry cap `MAX_RETRIES` (3 attempts). -/
def MAX_RETRIES : Nat := 3

/-- Base retry delay `RETRY_DELAY_MS` (100 ms, scaled linearly by the
attempt number). -/
def RETRY_DELAY_MS : Nat := 100

/-- Outcome of one `performBatchWrite` flush: the updated tree, one
result per drained item (promise resolution or rejection), the queue
remainder, and how many durable writes were issued. -/
structure BatchOutcome where
  tree : Tree
  results : List (Except String Unit)
  remaining : List WriteReq
  durableWrites : Nat
deriving Repr

/-- `DatabaseRepository.performBatchWrite` (part_006 lines 48-101): drain
the `MAX_BATCH_SIZE` oldest queued items (`splice(0, 100)`), apply them
to the in-memory tree in enqueue order, issue exactly one durable write
(whose success or failure is the `writeOutcome` parameter), then resolve
every future of the batch in order on success, or reject every future of
the batch with the underlying error on failure.  The `isWriting` mutual
exclusion guard is a concurrency device with no sequential content and
is not modelled. -/
def performBatchWrite (tree : Tree) (pendingWrites : List WriteReq)
    (writeOutcome : Except String Unit) : BatchOutcome :=
  if pendingWrites.isEmpty then ⟨tree, [], pendingWrites, 0⟩
  else
    let batch := pendingWrites.take MAX_BATCH_SIZE
    let remaining := pendingWrites.drop MAX_BATCH_SIZE
    let tree2 := batch.foldl applyWrite tree
    match writeOutcome with
    | .ok _ => ⟨tree2, batch.map (fun _ => .ok ()), remaining, 1⟩
    | .error e => ⟨tree2, batch.map (fun _ => .error e), remaining, 1⟩

/-- `DatabaseRepository.executeWithRetry` (part_006 lines 133-149),
starting from attempt number `attempt`: run the operation (whose outcome
per attempt number is `op`); on failure sleep `attempt × RETRY_DELAY_MS`
and retry while fewer than `MAX_RETRIES` attempts were made, finally
rethrowing the last error.  Returns the final outcome together with the
list of backoff delays slept. -/
def retryFrom {α : Type} (op : Nat → Except String α) (attempt : Nat) :
    Except String α × List Nat :=
  match op attempt with
  | .ok a => (.ok a, [])
  | .error e =>
    if h : attempt < MAX_RETRIES then
      let r := retryFrom op (attempt + 1)
      (r.1, RETRY_DELAY_MS * attempt :: r.2)
    else (.error e, [])
termination_by MAX_RETRIES - attempt
decreasing_by simp only [MAX_RETRIES] at *; omega

/-- `executeWithRetry` proper: attempts are numbered from 1. -/
def executeWithRetry {α : Type} (op : Nat → Except String α) :
    Except String α × List Nat :=
  retryFrom op 1

/-- C4: a failing durable write is retried up to 3 times with linear
backoff of `attempt × 100` ms between attempts — an operation failing on
all three attempts returns the last underlying error after sleeping
100 ms and 200 ms, and an operation succeeding on its second attempt
returns that success after a single 100 ms backoff — and when the
durable write of a flush fails, every future of the drained batch is
rejected with the same underlying error (all-or-nothing per batch, so
an unrelated queued write sharing the failing batch is rejected too). -/
theorem executeWithRetry_batch_rejection {α : Type}
    (op opB : Nat → Except String α) (e1 e2 e3 eb : String) (b : α)
    (h1 : op 1 = .error e1) (h2 : op 2 = .error e2) (h3 : op 3 = .error e3)
    (hb1 : opB 1 = .error eb) (hb2 : opB 2 = .ok b)
    (tree : Tree) (pendingWrites : List WriteReq) (hne : pendingWrites ≠ [])
    (err : String) :
    executeWithRetry op = (.error e3, [100, 200]) ∧
    executeWithRetry opB = (.ok b, [100]) ∧
    (performBatchWrite tree pendingWrites (.error err)).results =
      (pendingWrites.take MAX_BATCH_SIZE).map (fun _ => Except.error err) := by
  refine ⟨?_, ?_, ?_⟩
  · rw [executeWithRetry, retryFrom, h1]
    rw [retryFrom, h2]
    rw [retryFrom, h3]
    simp [MAX_RETRIES, RETRY_DELAY_MS]
  · rw [executeWithRetry, retryFrom, hb1]
    rw [retryFrom, hb2]
    simp [MAX_RETRIES, RETRY_DELAY_MS]
  · rw [performBatchWrite]
    simp [List.isEmpty_iff, hne]

/-- C4 witness: an operation failing all three attempts with errors
`"e1"`, `"e2"`, `"e3"`, an operation recovering on attempt 2, and a
two-item batch whose durable write fails with `"disk full"`. -/
theorem executeWithRetry_batch_rejection_witness :
    ((fun n => (Except.error ("e" ++ toString n) : Except String Nat)) 1 =
        .error "e1" ∧
      (fun n => (if n = 2 then .ok 7 else .error "eb" : Except String Nat)) 2 =
        .ok 7 ∧
      ([⟨"g1", "scores", ⟨"u1", "", 1⟩⟩, ⟨"g1", "scores", ⟨"u2", "", 2⟩⟩] :
        List WriteReq) ≠ []) ∧
    (executeWithRetry (fun n => (Except.error ("e" ++ toString n) : Except String Nat)) =
      (.error "e3", [100, 200]) ∧
    executeWithRetry (fun n => (if n = 2 then .ok 7 else .error "eb" : Except String Nat)) =
      (.ok 7, [100]) ∧
    (performBatchWrite []
        [⟨"g1", "scores", ⟨"u1", "", 1⟩⟩, ⟨"g1", "scores", ⟨"u2", "", 2⟩⟩]
        (.error "disk full")).results =
      (([⟨"g1", "scores", ⟨"u1", "", 1⟩⟩, ⟨"g1", "scores", ⟨"u2", "", 2⟩⟩] :
        List WriteReq).take MAX_BATCH_SIZE).map (fun _ => Except.error "disk full")) :=
  ⟨⟨rfl, rfl, by decide⟩,
   executeWithRetry_batch_rejection
     (fun n => .error ("e" ++ toString n))
     (fun n => if n = 2 then .ok 7 else .error "eb")
     "e1" "e2" "e3" "eb" 7 rfl rfl rfl rfl rfl
     [] [⟨"g1", "scores", ⟨"u1", "", 1⟩⟩, ⟨"g1", "scores", ⟨"u2", "", 2⟩⟩]
     (by decide) "disk full"⟩

/-- The flush loop: `performBatchWrite` drains one batch, and the
source's `finally` block schedules a follow-up flush whenever items
remain queued (part_006 lines 96-99); `drainAll` iterates this until the
queue is empty, collecting the drained batches (one durable write
each). -/
def drainAll (tree : Tree) (pendingWrites : List WriteReq) :
    Tree × List (List WriteReq) :=
  if h : pendingWrites.isEmpty then (tree, [])
  else
    let out := performBatchWrite tree pendingWrites (.ok ())
    let rest := drainAll out.tree (pendingWrites.drop MAX_BATCH_SIZE)
    (rest.1, pendingWrites.take MAX_BATCH_SIZE :: rest.2)
termination_by pendingWrites.length
decreasing_by
  simp only [List.isEmpty_iff] at h
  have hlen : pendingWrites.length ≠ 0 := by
    simpa [List.length_eq_zero] using h
  simp only [List.length_drop, MAX_BATCH_SIZE]
  omega

/-- Helper: ceiling-division step for the batch count. -/
theorem ceil_batches_step (n : Nat) (hn : n ≠ 0) :
    (n - 100 + 99) / 100 + 1 = (n + 99) / 100 := by
  by_cases h : n ≤ 100
  · have h0 : n - 100 = 0 := by omega
    rw [h0]
    have : (n + 99) / 100 = 1 := by
      apply Nat.div_eq_of_lt_le <;> omega
    simp [this]
  · have : n + 99 = (n - 100 + 99) + 100 := by omega
    rw [this, Nat.add_div_right _ (by norm_num)]

/-- C5: repeatedly flushing a queue of `N` items drains batches of at
most 100 (each nonempty, each one durable write), issues exactly
`⌈N/100⌉` durable writes, applies all items to the document tree in
enqueue order, partitions the `N` records without loss or duplication,
and each successful flush resolves every future of its batch in order
while leaving exactly the post-cap remainder queued. -/
theorem performBatchWrite_drain_partition (tree : Tree) (pendingWrites : List WriteReq) :
    (drainAll tree pendingWrites).2.length = (pendingWrites.length + 99) / 100 ∧
    (drainAll tree pendingWrites).2.flatten = pendingWrites ∧
    (∀ b ∈ (drainAll tree pendingWrites).2, b.length ≤ MAX_BATCH_SIZE ∧ b ≠ []) ∧
    (drainAll tree pendingWrites).1 = pendingWrites.foldl applyWrite tree ∧
    (pendingWrites ≠ [] →
      (performBatchWrite tree pendingWrites (.ok ())).results =
        (pendingWrites.take MAX_BATCH_SIZE).map (fun _ => Except.ok ()) ∧
      (performBatchWrite tree pendingWrites (.ok ())).remaining =
        pendingWrites.drop MAX_BATCH_SIZE ∧
      (performBatchWrite tree pendingWrites (.ok ())).durableWrites = 1) := by
  have main : ∀ n (tr : Tree) (p : List WriteReq), p.length ≤ n →
      (drainAll tr p).2.length = (p.length + 99) / 100 ∧
      (drainAll tr p).2.flatten = p ∧
      (∀ b ∈ (drainAll tr p).2, b.length ≤ MAX_BATCH_SIZE ∧ b ≠ []) ∧
      (drainAll tr p).1 = p.foldl applyWrite tr := by
    intro n
    induction n with
    | zero =>
      intro tr p hp
      have hnil : p = [] := by
        cases p with
        | nil => rfl
        | cons a as => simp at hp
      subst hnil
      rw [drainAll, dif_pos (by simp)]
      simp
    | succ n ih =>
      intro tr p hp
      by_cases hnil : p.isEmpty
      · simp only [List.isEmpty_iff] at hnil
        subst hnil
        rw [drainAll, dif_pos (by simp)]
        simp
      · rw [drainAll, dif_neg hnil]
        dsimp only
        have hlen0 : p.length ≠ 0 := by
          simp only [List.isEmpty_iff] at hnil
          simpa [List.length_eq_zero] using hnil
        have hrec := ih (performBatchWrite tr p (Except.ok ())).tree
          (p.drop MAX_BATCH_SIZE)
          (by simp only [List.length_drop, MAX_BATCH_SIZE]; omega)
        obtain ⟨hcnt, hjoin, hbatches, htree⟩ := hrec
        have htreeOut : (performBatchWrite tr p (Except.ok ())).tree =
            (p.take MAX_BATCH_SIZE).foldl applyWrite tr := by
          rw [performBatchWrite]
          simp [hnil]
        refine ⟨?_, ?_, ?_, ?_⟩
        · simp only [List.length_cons, hcnt, List.length_drop]
          exact ceil_batches_step p.length hlen0
        · simp [hjoin]
        · intro b hb
          simp only [List.mem_cons] at hb
          rcases hb with hb | hb
          · subst hb
            constructor
            · simpa [MAX_BATCH_SIZE] using List.length_take_le MAX_BATCH_SIZE p
            · simp only [ne_eq, List.take_eq_nil_iff, MAX_BATCH_SIZE]
              simp only [List.isEmpty_iff] at hnil
              simp [hnil]
          · exact hbatches b hb
        · rw [htree, htreeOut, ← List.foldl_append, List.take_append_drop]
  have hfin := main pendingWrites.length tree pendingWrites (le_refl _)
  refine ⟨hfin.1, hfin.2.1, hfin.2.2.1, hfin.2.2.2, ?_⟩
  intro hne
  rw [performBatchWrite]
  simp [List.isEmpty_iff, hne]

/-- C5 witness queue: three writes to one (collectionKey, storageKey)
pair. -/
def c5Queue : List WriteReq :=
  [⟨"g1", "scores", ⟨"u1", "", 10⟩⟩,
   ⟨"g1", "scores", ⟨"u2", "", 20⟩⟩,
   ⟨"g1", "scores", ⟨"u3", "", 30⟩⟩]

/-- C5 witness: draining a concrete three-item queue from the empty tree
yields one batch of three, one durable write, and all three records in
enqueue order. -/
theorem performBatchWrite_drain_partition_witness :
    (drainAll [] c5Queue).2.length = (c5Queue.length + 99) / 100 ∧
    (drainAll [] c5Queue).2.flatten = c5Queue ∧
    (∀ b ∈ (drainAll [] c5Queue).2, b.length ≤ MAX_BATCH_SIZE ∧ b ≠ []) ∧
    (drainAll [] c5Queue).1 = c5Queue.foldl applyWrite [] ∧
    (c5Queue ≠ [] →
      (performBatchWrite [] c5Queue (.ok ())).results =
        (c5Queue.take MAX_BATCH_SIZE).map (fun _ => Except.ok ()) ∧
      (performBatchWrite [] c5Queue (.ok ())).remaining =
        c5Queue.drop MAX_BATCH_SIZE ∧
      (performBatchWrite [] c5Queue (.ok ())).durableWrites = 1) :=
  performBatchWrite_drain_partition [] c5Queue

/-- Timed batcher state: the FIFO queue of pending writes, the absolute
deadline of the debounce timer (`writeTimeout`) when one is pending, and
the log of flushes performed so far as (fire time, drained batch size)
pairs. -/
structure BatcherState where
  pending : List WriteReq
  timer : Option Nat
  flushLog : List (Nat × Nat)
deriving DecidableEq, Repr

/-- The quiescent batcher: empty queue, no timer, nothing flushed. -/
def initialBatcher : BatcherState :=
  { pending := [], timer := none, flushLog := [] }

/-- `storeData` at time `t` (part_006 lines 115-131): push the request on
the queue and call `scheduleBatchWrite(true)`, which clears any pending
timer and starts a fresh one due at `t + BATCH_DELAY_MS` — i.e. every
enqueue unconditionally resets the debounce deadline.  No queue-size
check occurs on the enqueue path. -/
def enqueueEvent (t : Nat) (w : WriteReq) (st : BatcherState) : BatcherState :=
  { pending := st.pending ++ [w]
    timer := some (t + BATCH_DELAY_MS)
    flushLog := st.flushLog }

/-- The debounce timer firing at its deadline `d` (part_006 lines
109-112 and 48-101): the timer slot is cleared, then `performBatchWrite`
drains up to `MAX_BATCH_SIZE` oldest items; if items remain queued, the
`finally` block calls `scheduleBatchWrite()` which starts a fresh timer
due at `d + BATCH_DELAY_MS`. -/
def fireEvent (d : Nat) (st : BatcherState) : BatcherState :=
  if st.pending.isEmpty then { st with timer := none }
  else
    { pending := st.pending.drop MAX_BATCH_SIZE
      timer :=
        if (st.pending.drop MAX_BATCH_SIZE).isEmpty then none
        else some (d + BATCH_DELAY_MS)
      flushLog := st.flushLog ++ [(d, (st.pending.take MAX_BATCH_SIZE).length)] }

/-- Fire the timer as long as its deadline lies strictly before time `t`.
The fuel bounds the number of chained fires; `st.pending.length + 1`
always suffices, since every fire either drains at least one item or
clears the timer. -/
def fireDue : Nat → Nat → BatcherState → BatcherState
  | 0, _, st => st
  | fuel + 1, t, st =>
    match st.timer with
    | some d => if d < t then fireDue fuel t (fireEvent d st) else st
    | none => st

/-- Run the batcher over a trace of timestamped enqueues in time order:
before each enqueue, fire any timer whose deadline has passed. -/
def runTrace (events : List (Nat × WriteReq)) (st : BatcherState) : BatcherState :=
  match events with
  | [] => st
  | (t, w) :: rest => runTrace rest (enqueueEvent t w (fireDue (st.pending.length + 1) t st))

/-- C2 counterexample trace: 101 writes enqueued at times 0, 1, …, 100 —
every consecutive pair within 1 ms, far inside the 50 ms window, and the
queue passes the 100-item cap while enqueues keep arriving. -/
def c2Trace : List (Nat × WriteReq) :=
  (List.range 101).map (fun i => (i, ⟨"g1", "scores", ⟨toString i, "", i⟩⟩))

set_option maxRecDepth 40000 in
/-- C2: the claim as stated is false on the code.  The claim says the
accumulation window also ends when the pending queue reaches the cap of
100 items, so under its reading a flush must occur no later than the
101st enqueue of `c2Trace` and the pending queue can never exceed 100
within one window.  Running the code's event semantics on `c2Trace`,
however, performs no flush at all — the queue holds all 101 items and
the flush log is empty, because each enqueue resets the 50 ms timer and
no size check exists on the enqueue path. -/
theorem batcher_cap_no_window_end_cex :
    (runTrace c2Trace initialBatcher).flushLog = [] ∧
    (runTrace c2Trace initialBatcher).pending.length = 101 ∧
    MAX_BATCH_SIZE < (runTrace c2Trace initialBatcher).pending.length := by
  refine ⟨?_, ?_, ?_⟩ <;> decide

/-- Helper: while every enqueue arrives no later than the current timer
deadline and consecutive enqueues are less than one debounce delay
apart, the batcher never fires: all writes accumulate in the queue, the
flush log is untouched, and the timer deadline ends up 50 ms after the
last enqueue. -/
theorem runTrace_no_fire (events : List (Nat × WriteReq)) :
    ∀ (ps : List WriteReq) (d : Nat) (log : List (Nat × Nat)),
    List.Chain' (fun a b => a < b ∧ b < a + BATCH_DELAY_MS) (events.map Prod.fst) →
    (∀ t0 w0, events.head? = some (t0, w0) → t0 ≤ d) →
    runTrace events ⟨ps, some d, log⟩ =
      { pending := ps ++ events.map Prod.snd
        timer := some (events.getLast?.elim d (fun tw => tw.1 + BATCH_DELAY_MS))
        flushLog := log } := by
  induction events with
  | nil =>
    intro ps d log _ _
    simp [runTrace, Option.elim]
  | cons tw rest ih =>
    obtain ⟨t, w⟩ := tw
    intro ps d log hchain hfirst
    have hle : t ≤ d := hfirst t w rfl
    have hnofire : fireDue (ps.length + 1) t ⟨ps, some d, log⟩ = ⟨ps, some d, log⟩ := by
      simp [fireDue, Nat.not_lt.mpr hle]
    rw [runTrace, hnofire]
    have henq : enqueueEvent t w ⟨ps, some d, log⟩ =
        ⟨ps ++ [w], some (t + BATCH_DELAY_MS), log⟩ := rfl
    rw [henq]
    rw [List.map_cons, List.chain'_cons'] at hchain
    have hrec := ih (ps ++ [w]) (t + BATCH_DELAY_MS) log hchain.2 (by
      intro t0 w0 h0
      have : t0 ∈ (rest.map Prod.fst).head? := by
        simp [List.head?_map, h0]
      have := hchain.1 t0 this
      omega)
    rw [hrec]
    cases rest with
    | nil => simp [Option.elim]
    | cons r rs =>
      cases hlast : (r :: rs).getLast? with
      | none => simp at hlast
      | some x => simp [List.getLast?_cons_cons, hlast, List.append_assoc]

/-- C2 (amended): the first enqueue after quiescence starts a 50 ms
flush timer, and every further enqueue while the timer is pending resets
the deadline to 50 ms after that enqueue (pure debounce).  The
accumulation window ends only when no new item arrives for 50 ms: as
long as consecutive enqueues stay less than 50 ms apart the batcher
never flushes, no matter how long the queue grows (the cap of 100 does
not end the window).  The cap instead bounds the batch drained when the
timer finally fires: a flush drains exactly the 100 oldest queued items
and logs the drained batch size. -/
theorem batcher_pure_debounce_amended
    (t : Nat) (w : WriteReq) (events : List (Nat × WriteReq))
    (st st2 : BatcherState) (d : Nat)
    (hchain : List.Chain' (fun a b => a < b ∧ b < a + BATCH_DELAY_MS)
      (((t, w) :: events).map Prod.fst))
    (hne : ¬st2.pending.isEmpty) :
    ((enqueueEvent t w st).pending = st.pending ++ [w] ∧
     (enqueueEvent t w st).timer = some (t + BATCH_DELAY_MS) ∧
     (enqueueEvent t w st).flushLog = st.flushLog) ∧
    runTrace ((t, w) :: events) initialBatcher =
      { pending := ((t, w) :: events).map Prod.snd
        timer := some ((((t, w) :: events).getLastD (t, w)).1 + BATCH_DELAY_MS)
        flushLog := [] } ∧
    ((fireEvent d st2).pending = st2.pending.drop MAX_BATCH_SIZE ∧
     (fireEvent d st2).flushLog =
       st2.flushLog ++ [(d, (st2.pending.take MAX_BATCH_SIZE).length)]) := by
  refine ⟨⟨rfl, rfl, rfl⟩, ?_, ?_⟩
  · have hstep : runTrace ((t, w) :: events) initialBatcher =
        runTrace events ⟨[w], some (t + BATCH_DELAY_MS), []⟩ := by
      rfl
    rw [hstep]
    rw [List.map_cons, List.chain'_cons'] at hchain
    have hrec := runTrace_no_fire events [w] (t + BATCH_DELAY_MS) [] hchain.2 (by
      intro t0 w0 h0
      have : t0 ∈ (events.map Prod.fst).head? := by
        simp [List.head?_map, h0]
      have := hchain.1 t0 this
      omega)
    rw [hrec]
    cases events with
    | nil => simp [Option.elim]
    | cons r rs =>
      simp only [List.getLastD_cons, List.getLastD_eq_getLast?, List.map_cons]
      cases hlast : (r :: rs).getLast? with
      | none => simp at hlast
      | some x => simp [Option.elim, hlast]
  · rw [fireEvent, if_neg hne]
    exact ⟨rfl, rfl⟩

/-- C2 amended witness: four enqueues at times 0, 10, 20, 45 (gaps
10, 10, 25 ms, all under 50 ms) from quiescence, plus a concrete
nonempty batcher state for the fire clause. -/
theorem batcher_pure_debounce_amended_witness :
    (List.Chain' (fun a b => a < b ∧ b < a + BATCH_DELAY_MS)
      (((0, (⟨"g", "s", ⟨"a", "", 0⟩⟩ : WriteReq)) ::
        [(10, ⟨"g", "s", ⟨"b", "", 1⟩⟩), (20, ⟨"g", "s", ⟨"c", "", 2⟩⟩),
         (45, ⟨"g", "s", ⟨"d", "", 3⟩⟩)]).map Prod.fst) ∧
     ¬(BatcherState.mk [⟨"g", "s", ⟨"a", "", 0⟩⟩] (some 50) []).pending.isEmpty) ∧
    (((enqueueEvent 0 ⟨"g", "s", ⟨"a", "", 0⟩⟩ initialBatcher).pending =
        initialBatcher.pending ++ [⟨"g", "s", ⟨"a", "", 0⟩⟩] ∧
      (enqueueEvent 0 ⟨"g", "s", ⟨"a", "", 0⟩⟩ initialBatcher).timer =
        some (0 + BATCH_DELAY_MS) ∧
      (enqueueEvent 0 ⟨"g", "s", ⟨"a", "", 0⟩⟩ initialBatcher).flushLog =
        initialBatcher.flushLog) ∧
    runTrace ((0, ⟨"g", "s", ⟨"a", "", 0⟩⟩) ::
        [(10, ⟨"g", "s", ⟨"b", "", 1⟩⟩), (20, ⟨"g", "s", ⟨"c", "", 2⟩⟩),
         (45, ⟨"g", "s", ⟨"d", "", 3⟩⟩)]) initialBatcher =
      { pending := ((0, (⟨"g", "s", ⟨"a", "", 0⟩⟩ : WriteReq)) ::
          [(10, ⟨"g", "s", ⟨"b", "", 1⟩⟩), (20, ⟨"g", "s", ⟨"c", "", 2⟩⟩),
           (45, ⟨"g", "s", ⟨"d", "", 3⟩⟩)]).map Prod.snd
        timer := some ((((0, (⟨"g", "s", ⟨"a", "", 0⟩⟩ : WriteReq)) ::
          [(10, ⟨"g", "s", ⟨"b", "", 1⟩⟩), (20, ⟨"g", "s", ⟨"c", "", 2⟩⟩),
           (45, ⟨"g", "s", ⟨"d", "", 3⟩⟩)]).getLastD
             (0, ⟨"g", "s", ⟨"a", "", 0⟩⟩)).1 + BATCH_DELAY_MS)
        flushLog := [] } ∧
    ((fireEvent 60 (BatcherState.mk [⟨"g", "s", ⟨"a", "", 0⟩⟩] (some 50) [])).pending =
        (BatcherState.mk [⟨"g", "s", ⟨"a", "", 0⟩⟩] (some 50) []).pending.drop
          MAX_BATCH_SIZE ∧
      (fireEvent 60 (BatcherState.mk [⟨"g", "s", ⟨"a", "", 0⟩⟩] (some 50) [])).flushLog =
        (BatcherState.mk [⟨"g", "s", ⟨"a", "", 0⟩⟩] (some 50) []).flushLog ++
          [(60, ((BatcherState.mk [⟨"g", "s", ⟨"a", "", 0⟩⟩] (some 50) []).pending.take
            MAX_BATCH_SIZE).length)])) :=
  ⟨⟨by simp [List.chain'_cons, BATCH_DELAY_MS], by decide⟩,
   batcher_pure_debounce_amended 0 ⟨"g", "s", ⟨"a", "", 0⟩⟩
     [(10, ⟨"g", "s", ⟨"b", "", 1⟩⟩), (20, ⟨"g", "s", ⟨"c", "", 2⟩⟩),
      (45, ⟨"g", "s", ⟨"d", "", 3⟩⟩)]
     initialBatcher (BatcherState.mk [⟨"g", "s", ⟨"a", "", 0⟩⟩] (some 50) []) 60
     (by simp [List.chain'_cons, BATCH_DELAY_MS]) (by decide)⟩

/-- One cache slot, from `CacheEntry<T>`: the cached value, its absolute
expiry time, and access bookkeeping for LRU eviction. -/
structure CacheEntry (δ : Type) where
  data : δ
  expiresAt : Nat
  accessCount : Nat
  lastAccessed : Nat
deriving DecidableEq, Repr

/-- The cache `Map`, as an insertion-ordered association list with
unique keys. -/
abbrev Cache (δ : Type) := List (String × CacheEntry δ)

/-- Repository configuration after `initialize` merged its defaults
(`enableCaching: true, cacheTTL: 5 * 60 * 1000, maxCacheSize: 1000`)
with the caller-supplied overrides. -/
structure RepoConfig where
  enableCaching : Bool
  cacheTTL : Nat
  maxCacheSize : Nat
deriving DecidableEq, Repr

/-- The configuration produced by `initialize` when the caller overrides
nothing: caching on, 5-minute TTL, 1000-entry capacity. -/
def defaultRepoConfig : RepoConfig :=
  { enableCaching := true, cacheTTL := 5 * 60 * 1000, maxCacheSize := 1000 }

/-- `getCacheKey` (part_006 lines 165-167):
`"entityType:collectionKey"`, with an optional `":suffix"` for
per-entity-id keys. -/
def getCacheKey (entityType collectionKey : String) (suffix : Option String) : String :=
  match suffix with
  | some s => entityType ++ ":" ++ collectionKey ++ ":" ++ s
  | none => entityType ++ ":" ++ collectionKey

/-- JS `key.startsWith(pat)`, on the characters of the strings. -/
def jsStartsWith (key pat : String) : Bool :=
  pat.data.isPrefixOf key.data

/-- `clearCacheByPattern` (part_006 lines 216-219): delete every cache
entry whose key starts with the pattern. -/
def clearCacheByPattern {δ : Type} (pat : String) (cache : Cache δ) : Cache δ :=
  cache.filter (fun kv => !(jsStartsWith kv.1 pat))

/-- `getFromCache` (part_006 lines 169-188): with caching disabled or the
key absent, miss; with the entry expired at the current time, delete it
and miss; otherwise bump the access bookkeeping and hit.  Returns the
value read (if any) and the updated cache. -/
def getFromCache {δ : Type} (cfg : RepoConfig) (now : Nat) (key : String)
    (cache : Cache δ) : Option δ × Cache δ :=
  if !cfg.enableCaching then (none, cache)
  else
    match lookupA key cache with
    | none => (none, cache)
    | some entry =>
      if entry.expiresAt < now then (none, cache.filter (fun kv => kv.1 != key))
      else
        (some entry.data,
         updateA key
           (fun _ =>
             { entry with accessCount := entry.accessCount + 1, lastAccessed := now })
           cache)

/-- Eviction order: least-recently-accessed first. -/
def lastAccessedLe {δ : Type} (a b : String × CacheEntry δ) : Prop :=
  a.2.lastAccessed ≤ b.2.lastAccessed

instance {δ : Type} : DecidableRel (@lastAccessedLe δ) :=
  fun a b => Nat.decLe a.2.lastAccessed b.2.lastAccessed

instance {δ : Type} : IsTotal (String × CacheEntry δ) lastAccessedLe :=
  ⟨fun a b => Nat.le_total a.2.lastAccessed b.2.lastAccessed⟩

instance {δ : Type} : IsTrans (String × CacheEntry δ) lastAccessedLe :=
  ⟨fun _ _ _ hab hbc => Nat.le_trans hab hbc⟩

/-- `evictOldestEntries` (part_006 lines 205-214): take a snapshot of
the entries, stable-sort it by `lastAccessed` ascending, and delete the
first `⌊n · 0.2⌋ = n / 5` keys — one batched pass removing the
least-recently-accessed 20%. -/
def evictOldestEntries {δ : Type} (cache : Cache δ) : Cache δ :=
  let sorted := List.insertionSort lastAccessedLe cache
  let toRemove := cache.length / 5
  let removedKeys := (sorted.take toRemove).map Prod.fst
  cache.filter (fun kv => !(removedKeys.contains kv.1))

/-- `setCache` (part_006 lines 190-203): no-op with caching disabled;
when the cache has reached capacity, evict the oldest 20% in one pass;
then store the entry with a fresh TTL and access stamp. -/
def setCache {δ : Type} (cfg : RepoConfig) (now : Nat) (key : String) (data : δ)
    (cache : Cache δ) : Cache δ :=
  if !cfg.enableCaching then cache
  else
    let cache2 :=
      if cache.length ≥ cfg.maxCacheSize then evictOldestEntries cache else cache
    updateA key
      (fun _ => { data := data, expiresAt := now + cfg.cacheTTL, accessCount := 1,
                  lastAccessed := now })
      cache2

/-- Helper: an upsert grows the association list by at most one slot. -/
theorem length_updateA_le {v : Type} (k : String) (f : Option v → v)
    (l : List (String × v)) : (updateA k f l).length ≤ l.length + 1 := by
  induction l with
  | nil => simp [updateA]
  | cons kv rest ih =>
    obtain ⟨k2, x⟩ := kv
    by_cases h : k = k2 <;> simp [updateA, h] <;> omega

/-- Helper: the surviving entries of a batched eviction are, up to
permutation, the sorted snapshot minus its first `n / 5` entries. -/
theorem evictOldestEntries_perm {δ : Type} (cache : Cache δ)
    (hkeys : (cache.map Prod.fst).Nodup) :
    (evictOldestEntries cache).Perm
      ((List.insertionSort lastAccessedLe cache).drop (cache.length / 5)) := by
  set s := List.insertionSort lastAccessedLe cache with hs
  set tR := cache.length / 5 with htR
  set K := (s.take tR).map Prod.fst with hK
  have hperm : s.Perm cache := List.perm_insertionSort _ cache
  have hsplit : s.take tR ++ s.drop tR = s := List.take_append_drop tR s
  have hnodupS : (s.map Prod.fst).Nodup := (hperm.map Prod.fst).symm.nodup hkeys
  have hdisj : ((s.take tR).map Prod.fst).Disjoint ((s.drop tR).map Prod.fst) := by
    have : ((s.take tR).map Prod.fst ++ (s.drop tR).map Prod.fst).Nodup := by
      rw [← List.map_append, hsplit]
      exact hnodupS
    exact (List.nodup_append.mp this).2.2
  have hstep : (evictOldestEntries cache).Perm
      (s.filter (fun kv => !(K.contains kv.1))) := by
    show (cache.filter (fun kv => !(K.contains kv.1))).Perm
      (s.filter (fun kv => !(K.contains kv.1)))
    exact hperm.symm.filter (fun kv => !(K.contains kv.1))
  have htake : (s.take tR).filter (fun kv => !(K.contains kv.1)) = [] := by
    rw [List.filter_eq_nil_iff]
    intro kv hkv
    have hin : kv.1 ∈ K := List.mem_map_of_mem Prod.fst hkv
    simpa using hin
  have hdrop : (s.drop tR).filter (fun kv => !(K.contains kv.1)) = s.drop tR := by
    rw [List.filter_eq_self]
    intro kv hkv
    have hout : kv.1 ∉ K := fun hc => hdisj hc (List.mem_map_of_mem Prod.fst hkv)
    simpa using hout
  calc (evictOldestEntries cache).Perm (s.filter (fun kv => !(K.contains kv.1))) := hstep
    _ = (s.take tR ++ s.drop tR).filter (fun kv => !(K.contains kv.1)) := by
        rw [hsplit]
    _ = s.drop tR := by rw [List.filter_append, htake, hdrop, List.nil_append]

/-- C9: with the default capacity of 1000, the cache never exceeds its
capacity across an insert; an insert that finds the cache full runs the
batched eviction exactly once and then stores the new entry; the
eviction removes exactly `⌊n/5⌋` (20%) of the entries in a single
pass; and every evicted entry was accessed no later than every
surviving entry (least-recently-accessed eviction by last-access
time). -/
theorem cache_capacity_eviction {δ : Type} (cfg : RepoConfig) (now : Nat)
    (key : String) (data : δ) (cache : Cache δ)
    (hcfg : cfg.enableCaching = true) (hmax : cfg.maxCacheSize = 1000)
    (hkeys : (cache.map Prod.fst).Nodup) :
    (cache.length ≤ 1000 → (setCache cfg now key data cache).length ≤ 1000) ∧
    (cache.length ≥ cfg.maxCacheSize →
      setCache cfg now key data cache =
        updateA key
          (fun _ => { data := data, expiresAt := now + cfg.cacheTTL, accessCount := 1,
                      lastAccessed := now })
          (evictOldestEntries cache)) ∧
    (evictOldestEntries cache).length = cache.length - cache.length / 5 ∧
    (∀ r ∈ cache, r ∉ evictOldestEntries cache →
      ∀ k ∈ evictOldestEntries cache, r.2.lastAccessed ≤ k.2.lastAccessed) := by
  have hperm := evictOldestEntries_perm cache hkeys
  have hsPerm : (List.insertionSort lastAccessedLe cache).Perm cache :=
    List.perm_insertionSort _ cache
  have hsLen : (List.insertionSort lastAccessedLe cache).length = cache.length :=
    hsPerm.length_eq
  have hevLen : (evictOldestEntries cache).length = cache.length - cache.length / 5 := by
    rw [hperm.length_eq, List.length_drop, hsLen]
  refine ⟨?_, ?_, hevLen, ?_⟩
  · intro hle
    by_cases hfull : cache.length ≥ cfg.maxCacheSize
    · have h1000 : cache.length = 1000 := by omega
      have hupd := length_updateA_le key
        (fun _ => ({ data := data, expiresAt := now + cfg.cacheTTL, accessCount := 1,
                     lastAccessed := now } : CacheEntry δ))
        (evictOldestEntries cache)
      have hset : setCache cfg now key data cache =
          updateA key
            (fun _ => { data := data, expiresAt := now + cfg.cacheTTL, accessCount := 1,
                        lastAccessed := now })
            (evictOldestEntries cache) := by
        simp [setCache, hcfg, hfull]
      rw [hset]
      omega
    · have hupd := length_updateA_le key
        (fun _ => ({ data := data, expiresAt := now + cfg.cacheTTL, accessCount := 1,
                     lastAccessed := now } : CacheEntry δ))
        cache
      have hset : setCache cfg now key data cache =
          updateA key
            (fun _ => { data := data, expiresAt := now + cfg.cacheTTL, accessCount := 1,
                        lastAccessed := now })
            cache := by
        simp [setCache, hcfg, hfull]
      rw [hset]
      omega
  · intro hfull
    simp [setCache, hcfg, hfull]
  · intro r hr hrout k hk
    have hsorted : List.Pairwise lastAccessedLe (List.insertionSort lastAccessedLe cache) :=
      List.sorted_insertionSort lastAccessedLe cache
    have hkDrop : k ∈ (List.insertionSort lastAccessedLe cache).drop (cache.length / 5) :=
      hperm.mem_iff.mp hk
    have hrS : r ∈ List.insertionSort lastAccessedLe cache := hsPerm.mem_iff.mpr hr
    have hsplit2 : r ∈ (List.insertionSort lastAccessedLe cache).take (cache.length / 5) ++
        (List.insertionSort lastAccessedLe cache).drop (cache.length / 5) := by
      rw [List.take_append_drop]
      exact hrS
    have hrTake : r ∈ (List.insertionSort lastAccessedLe cache).take (cache.length / 5) := by
      rcases List.mem_append.mp hsplit2 with h | h
      · exact h
      · exact absurd (hperm.mem_iff.mpr h) hrout
    have hpw := hsorted
    rw [← List.take_append_drop (cache.length / 5) (List.insertionSort lastAccessedLe cache)]
      at hpw
    rw [List.pairwise_append] at hpw
    exact hpw.2.2 r hrTake k hkDrop

/-- C9 witness cache: two entries with distinct keys, the older one
accessed at time 1. -/
def c9Cache : Cache Nat :=
  [("s:g:1", { data := 11, expiresAt := 900, accessCount := 1, lastAccessed := 1 }),
   ("s:g:2", { data := 22, expiresAt := 900, accessCount := 3, lastAccessed := 5 })]

/-- C9 witness: instantiate the capacity and eviction facts at the
default configuration and the concrete two-entry cache `c9Cache`. -/
theorem cache_capacity_eviction_witness :
    (defaultRepoConfig.enableCaching = true ∧ defaultRepoConfig.maxCacheSize = 1000 ∧
      ((c9Cache.map Prod.fst).Nodup)) ∧
    ((c9Cache.length ≤ 1000 →
      (setCache defaultRepoConfig 7 "s:g:3" 33 c9Cache).length ≤ 1000) ∧
    (c9Cache.length ≥ defaultRepoConfig.maxCacheSize →
      setCache defaultRepoConfig 7 "s:g:3" 33 c9Cache =
        updateA "s:g:3"
          (fun _ => { data := 33, expiresAt := 7 + defaultRepoConfig.cacheTTL,
                      accessCount := 1, lastAccessed := 7 })
          (evictOldestEntries c9Cache)) ∧
    (evictOldestEntries c9Cache).length = c9Cache.length - c9Cache.length / 5 ∧
    (∀ r ∈ c9Cache, r ∉ evictOldestEntries c9Cache →
      ∀ k ∈ evictOldestEntries c9Cache, r.2.lastAccessed ≤ k.2.lastAccessed)) :=
  ⟨⟨rfl, rfl, by decide⟩,
   cache_capacity_eviction defaultRepoConfig 7 "s:g:3" 33 c9Cache rfl rfl (by decide)⟩

/-- Repository façade state: the `initialized`/`config` guard pair
(collapsed into one flag, since `initialize` always sets both), the
merged configuration, the in-memory document tree and the read cache.
The cache holds record lists for `getAll` keys; per-entity-id keys enter
only through `getById` and are relevant here for invalidation, which is
key-based. -/
structure RepoState where
  initDone : Bool
  config : RepoConfig
  tree : Tree
  cache : Cache (List EntityRec)
deriving DecidableEq, Repr

/-- `DatabaseRepository.getAll` (part_006 lines 303-344): uninitialized
calls return the empty list untouched; otherwise consult the cache under
`storageKey:collectionKey` (a hit returns the cached list after bumping
its access stamp), and on a miss read the document tree — returning the
empty list without caching when either tree level is absent, otherwise
caching and returning the stored list.  Returns the records, the updated
state, and whether the cache hit. -/
def getAllOp (s : RepoState) (storageKey collectionKey : String) (now : Nat) :
    List EntityRec × RepoState × Bool :=
  if !s.initDone then ([], s, false)
  else
    let key := getCacheKey storageKey collectionKey none
    let gfc := getFromCache s.config now key s.cache
    match gfc.1 with
    | some cached => (cached, { s with cache := gfc.2 }, true)
    | none =>
      match lookupA collectionKey s.tree with
      | none => ([], { s with cache := gfc.2 }, false)
      | some m =>
        match lookupA storageKey m with
        | none => ([], { s with cache := gfc.2 }, false)
        | some storedData =>
          (storedData,
           { s with cache := setCache s.config now key storedData gfc.2 }, false)

/-- `DatabaseRepository.store` (part_006 lines 221-246), its effect once
the enqueued write has flushed: uninitialized calls resolve doing
nothing; otherwise the record is appended to its (collectionKey,
storageKey) list and every cache entry under the
`storageKey:collectionKey` prefix is invalidated.  Registration
resolution is assumed to succeed (a missing registration is a fatal
configuration error outside this claim). -/
def storeOp (s : RepoState) (storageKey collectionKey : String) (object : EntityRec) :
    RepoState :=
  if !s.initDone then s
  else
    let s2 := { s with tree := applyWrite s.tree ⟨collectionKey, storageKey, object⟩ }
    { s2 with
      cache := clearCacheByPattern (getCacheKey storageKey collectionKey none) s2.cache }

/-- `DatabaseRepository.storeCollection` (part_006 lines 292-301), its
effect once flushed: uninitialized calls resolve doing nothing;
otherwise the collection value is appended as one record.  Note the
source performs no cache invalidation on this path. -/
def storeCollectionOp (s : RepoState) (storageKey collectionKey : String)
    (collection : EntityRec) : RepoState :=
  if !s.initDone then s
  else { s with tree := applyWrite s.tree ⟨collectionKey, storageKey, collection⟩ }

/-- `DatabaseRepository.replaceAll` (part_006 lines 380-409):
uninitialized calls resolve doing nothing; otherwise the storage key's
entire list is overwritten and one durable write issued, then the cache
prefix is invalidated. -/
def replaceAllOp (s : RepoState) (storageKey collectionKey : String)
    (objects : List EntityRec) : RepoState :=
  if !s.initDone then s
  else
    { s with
      tree := setColl s.tree collectionKey storageKey objects
      cache := clearCacheByPattern (getCacheKey storageKey collectionKey none) s.cache }

/-- `DatabaseRepository.deleteById` (part_006 lines 411-439) at the
state level: uninitialized calls return `false` untouched; otherwise
read the collection (through the cache), remove every matching record;
when nothing matched return `false` with no rewrite, else rewrite via
`replaceAll` and clear the cache prefix once more. -/
def deleteByIdOp (s : RepoState) (storageKey collectionKey objectId : String)
    (now : Nat) : Bool × RepoState :=
  if !s.initDone then (false, s)
  else
    let g := getAllOp s storageKey collectionKey now
    let r := deleteById g.1 objectId
    if r.1 then
      let s2 := replaceAllOp g.2.1 storageKey collectionKey r.2
      (true,
       { s2 with
         cache := clearCacheByPattern (getCacheKey storageKey collectionKey none) s2.cache })
    else (false, g.2.1)

/-- `DatabaseRepository.storeUnique` (part_006 lines 248-290) at the
state level: uninitialized calls return `false` untouched; otherwise
read the collection, scan for the id; on a match rewrite the full
collection with the record replaced (update), else append the record
(insert, its batched write flushed); both paths clear the cache
prefix. -/
def storeUniqueOp (s : RepoState) (storageKey collectionKey : String)
    (object : EntityRec) (now : Nat) : Bool × RepoState :=
  if !s.initDone then (false, s)
  else
    let g := getAllOp s storageKey collectionKey now
    match jsFindIndex (fun item => item.id == object.id) g.1 with
    | some i =>
      let s2 := replaceAllOp g.2.1 storageKey collectionKey (g.1.set i object)
      (true,
       { s2 with
         cache := clearCacheByPattern (getCacheKey storageKey collectionKey none) s2.cache })
    | none =>
      let s2 := { g.2.1 with
        tree := applyWrite g.2.1.tree ⟨collectionKey, storageKey, object⟩ }
      (false,
       { s2 with
         cache := clearCacheByPattern (getCacheKey storageKey collectionKey none) s2.cache })

/-- `DatabaseRepository.purgeStaleItems` (part_006 lines 346-378) at the
state level: uninitialized calls return 0 untouched; otherwise read the
collection, keep the strictly-newer records, rewrite via `replaceAll`
only when something was purged, and return the purge count. -/
def purgeStaleItemsOp (s : RepoState) (storageKey collectionKey : String)
    (cutoffTimestamp : String) (now : Nat) : Nat × RepoState :=
  if !s.initDone then (0, s)
  else
    let g := getAllOp s storageKey collectionKey now
    let r := purgeStaleItems g.1 cutoffTimestamp
    if 0 < r.1 then (r.1, replaceAllOp g.2.1 storageKey collectionKey r.2)
    else (r.1, g.2.1)

/-- C10: every public repository operation invoked before `initialize`
returns a neutral value without touching any state and without raising:
`store`, `storeCollection` and `replaceAll` resolve doing nothing,
`getAll` returns the empty list (with no cache activity), `deleteById`
and `storeUnique` return `false`, and `purgeStaleItems` returns 0. -/
theorem uninitialized_ops_noop (s : RepoState)
    (storageKey collectionKey objectId cutoff : String)
    (object collObj : EntityRec) (objects : List EntityRec) (now : Nat)
    (h : s.initDone = false) :
    storeOp s storageKey collectionKey object = s ∧
    storeCollectionOp s storageKey collectionKey collObj = s ∧
    replaceAllOp s storageKey collectionKey objects = s ∧
    getAllOp s storageKey collectionKey now = ([], s, false) ∧
    deleteByIdOp s storageKey collectionKey objectId now = (false, s) ∧
    storeUniqueOp s storageKey collectionKey object now = (false, s) ∧
    purgeStaleItemsOp s storageKey collectionKey cutoff now = (0, s) := by
  refine ⟨?_, ?_, ?_, ?_, ?_, ?_, ?_⟩ <;>
    simp [storeOp, storeCollectionOp, replaceAllOp, getAllOp, deleteByIdOp,
      storeUniqueOp, purgeStaleItemsOp, h]

/-- C10 witness: a concrete uninitialized state with a nonempty tree and
cache, on which every operation is a no-op with its neutral result. -/
theorem uninitialized_ops_noop_witness :
    (RepoState.mk false defaultRepoConfig [] []).initDone = false ∧
    (storeOp (RepoState.mk false defaultRepoConfig [] []) "s" "g" ⟨"u1", "", 1⟩ =
        RepoState.mk false defaultRepoConfig [] [] ∧
      storeCollectionOp (RepoState.mk false defaultRepoConfig [] []) "s" "g"
          ⟨"c", "", 2⟩ =
        RepoState.mk false defaultRepoConfig [] [] ∧
      replaceAllOp (RepoState.mk false defaultRepoConfig [] []) "s" "g"
          [⟨"u1", "", 1⟩] =
        RepoState.mk false defaultRepoConfig [] [] ∧
      getAllOp (RepoState.mk false defaultRepoConfig [] []) "s" "g" 0 =
        ([], RepoState.mk false defaultRepoConfig [] [], false) ∧
      deleteByIdOp (RepoState.mk false defaultRepoConfig [] []) "s" "g" "u1" 0 =
        (false, RepoState.mk false defaultRepoConfig [] []) ∧
      storeUniqueOp (RepoState.mk false defaultRepoConfig [] []) "s" "g"
          ⟨"u1", "", 1⟩ 0 =
        (false, RepoState.mk false defaultRepoConfig [] []) ∧
      purgeStaleItemsOp (RepoState.mk false defaultRepoConfig [] []) "s" "g" "t" 0 =
        (0, RepoState.mk false defaultRepoConfig [] [])) :=
  ⟨rfl,
   uninitialized_ops_noop (RepoState.mk false defaultRepoConfig [] []) "s" "g" "u1" "t"
     ⟨"u1", "", 1⟩ ⟨"c", "", 2⟩ [⟨"u1", "", 1⟩] 0 rfl⟩

/-- Helper: every string starts with itself. -/
theorem jsStartsWith_self (key : String) : jsStartsWith key key = true := by
  simp [jsStartsWith, List.isPrefixOf_iff_prefix]

/-- Helper: a string starts with any string it extends. -/
theorem jsStartsWith_append (p q : String) : jsStartsWith (p ++ q) p = true := by
  simp [jsStartsWith, List.isPrefixOf_iff_prefix, String.data_append]

/-- Helper: a per-entity-id cache key carries the coarse
`storageKey:collectionKey` prefix. -/
theorem jsStartsWith_entity_key (sk ck suffix : String) :
    jsStartsWith (getCacheKey sk ck (some suffix)) (getCacheKey sk ck none) = true := by
  have hsplit : getCacheKey sk ck (some suffix) =
      getCacheKey sk ck none ++ (":" ++ suffix) := by
    simp [getCacheKey, String.append_assoc]
  rw [hsplit]
  exact jsStartsWith_append _ _

/-- Helper: no survivor of `clearCacheByPattern` carries the pattern as
prefix. -/
theorem mem_clear_not_prefixed {δ : Type} (pat : String) (cache : Cache δ) :
    ∀ kv ∈ clearCacheByPattern pat cache, jsStartsWith kv.1 pat = false := by
  intro kv hkv
  have hmem := (List.mem_filter.mp hkv).2
  simpa using hmem

/-- Helper: a successful association-list lookup exhibits a member. -/
theorem lookupA_mem {v : Type} (k : String) (l : List (String × v)) (x : v)
    (h : lookupA k l = some x) : (k, x) ∈ l := by
  induction l with
  | nil => simp [lookupA] at h
  | cons kv rest ih =>
    obtain ⟨k2, y⟩ := kv
    by_cases hk : k = k2
    · subst hk
      simp [lookupA] at h
      simp [h]
    · simp only [lookupA, if_neg hk] at h
      simp [ih h]

/-- Helper: `getAllOp` never changes the guard flag, the tree or the
configuration — only the cache. -/
theorem getAllOp_preserve (s : RepoState) (sk ck : String) (now : Nat) :
    (getAllOp s sk ck now).2.1.initDone = s.initDone ∧
    (getAllOp s sk ck now).2.1.tree = s.tree ∧
    (getAllOp s sk ck now).2.1.config = s.config := by
  unfold getAllOp
  by_cases h : s.initDone
  · simp only [h, Bool.not_true, Bool.false_eq_true, if_false]
    cases hg : (getFromCache s.config now (getCacheKey sk ck none) s.cache).1 with
    | some cached => simp [hg]
    | none =>
      cases h1 : lookupA ck s.tree with
      | none => simp [hg, h1]
      | some m =>
        cases h2 : lookupA sk m with
        | none => simp [hg, h1, h2]
        | some stored => simp [hg, h1, h2]
  · simp [h]

/-- Which cache entries would answer a read for `storageKey:collectionKey`
after a prefix invalidation: none. -/
def cachePrefixCleared (storageKey collectionKey : String) (s2 : RepoState) : Prop :=
  ∀ kv ∈ s2.cache, jsStartsWith kv.1 (getCacheKey storageKey collectionKey none) = false

/-- A subsequent `getAll` for the same key misses the cache and returns
the authoritative document-tree content of the state it reads. -/
def nextReadMissesAndReflects (storageKey collectionKey : String) (now2 : Nat)
    (s2 : RepoState) : Prop :=
  (getAllOp s2 storageKey collectionKey now2).1 =
    getColl s2.tree collectionKey storageKey ∧
  (getAllOp s2 storageKey collectionKey now2).2.2 = false

/-- Helper: on a state whose cache holds nothing under the key's prefix,
`getAll` misses and reads the tree. -/
theorem cleared_state_reads_tree (s2 : RepoState) (sk ck : String) (now2 : Nat)
    (hinit : s2.initDone = true) (hcl : cachePrefixCleared sk ck s2) :
    nextReadMissesAndReflects sk ck now2 s2 := by
  have hmiss : lookupA (getCacheKey sk ck none) s2.cache = none := by
    cases hl : lookupA (getCacheKey sk ck none) s2.cache with
    | none => rfl
    | some x =>
      have hmem := lookupA_mem _ _ _ hl
      have := hcl _ hmem
      rw [jsStartsWith_self] at this
      cases this
  have hgfc : getFromCache s2.config now2 (getCacheKey sk ck none) s2.cache =
      (none, s2.cache) := by
    unfold getFromCache
    by_cases he : s2.config.enableCaching <;> simp [he, hmiss]
  constructor
  · cases h1 : lookupA ck s2.tree with
    | none => simp [getAllOp, hinit, hgfc, getColl, h1]
    | some m =>
      cases h2 : lookupA sk m with
      | none => simp [getAllOp, hinit, hgfc, getColl, h1, h2]
      | some stored => simp [getAllOp, hinit, hgfc, getColl, h1, h2]
  · cases h1 : lookupA ck s2.tree with
    | none => simp [getAllOp, hinit, hgfc, h1]
    | some m =>
      cases h2 : lookupA sk m with
      | none => simp [getAllOp, hinit, hgfc, h1, h2]
      | some stored => simp [getAllOp, hinit, hgfc, h1, h2]

/-- C8: every mutating operation on a (storageId, collectionKey) pair —
`store`, `storeUnique`, `replaceAll`, `deleteById` (when it removed
something) and `purgeStaleItems` (when it purged something) —
invalidates every cache entry whose key carries the
`storageKey:collectionKey` prefix, which includes the per-entity-id
keys; consequently the next `getAll` for that pair misses the cache and
returns the post-mutation document-tree content, which reflects the
mutation (append for `store`, the supplied list for `replaceAll`, the
filtered list for `deleteById`, the fresh records for
`purgeStaleItems`). -/
theorem mutations_invalidate_cache_prefix (s : RepoState)
    (storageKey collectionKey objectId cutoff : String)
    (object : EntityRec) (objects : List EntityRec) (now now2 : Nat)
    (hinit : s.initDone = true)
    (hdel : (deleteById (getAllOp s storageKey collectionKey now).1 objectId).1 = true)
    (hpurge : 0 < (purgeStaleItems (getAllOp s storageKey collectionKey now).1 cutoff).1) :
    (∀ entityId, jsStartsWith (getCacheKey storageKey collectionKey (some entityId))
        (getCacheKey storageKey collectionKey none) = true) ∧
    (cachePrefixCleared storageKey collectionKey
        (storeOp s storageKey collectionKey object) ∧
      nextReadMissesAndReflects storageKey collectionKey now2
        (storeOp s storageKey collectionKey object)) ∧
    (cachePrefixCleared storageKey collectionKey
        (replaceAllOp s storageKey collectionKey objects) ∧
      nextReadMissesAndReflects storageKey collectionKey now2
        (replaceAllOp s storageKey collectionKey objects)) ∧
    (cachePrefixCleared storageKey collectionKey
        (deleteByIdOp s storageKey collectionKey objectId now).2 ∧
      nextReadMissesAndReflects storageKey collectionKey now2
        (deleteByIdOp s storageKey collectionKey objectId now).2) ∧
    (cachePrefixCleared storageKey collectionKey
        (storeUniqueOp s storageKey collectionKey object now).2 ∧
      nextReadMissesAndReflects storageKey collectionKey now2
        (storeUniqueOp s storageKey collectionKey object now).2) ∧
    (cachePrefixCleared storageKey collectionKey
        (purgeStaleItemsOp s storageKey collectionKey cutoff now).2 ∧
      nextReadMissesAndReflects storageKey collectionKey now2
        (purgeStaleItemsOp s storageKey collectionKey cutoff now).2) ∧
    getColl (storeOp s storageKey collectionKey object).tree collectionKey storageKey =
      getColl s.tree collectionKey storageKey ++ [object] ∧
    getColl (replaceAllOp s storageKey collectionKey objects).tree
      collectionKey storageKey = objects ∧
    getColl (deleteByIdOp s storageKey collectionKey objectId now).2.tree
      collectionKey storageKey =
      (deleteById (getAllOp s storageKey collectionKey now).1 objectId).2 ∧
    getColl (purgeStaleItemsOp s storageKey collectionKey cutoff now).2.tree
      collectionKey storageKey =
      (purgeStaleItems (getAllOp s storageKey collectionKey now).1 cutoff).2 := by
  have hpres := getAllOp_preserve s storageKey collectionKey now
  have hinitg : (getAllOp s storageKey collectionKey now).2.1.initDone = true := by
    rw [hpres.1, hinit]
  -- store
  have hstore_cache : (storeOp s storageKey collectionKey object).cache =
      clearCacheByPattern (getCacheKey storageKey collectionKey none) s.cache := by
    simp [storeOp, hinit]
  have hstore_init : (storeOp s storageKey collectionKey object).initDone = true := by
    simp [storeOp, hinit]
  have hstore_tree : (storeOp s storageKey collectionKey object).tree =
      applyWrite s.tree ⟨collectionKey, storageKey, object⟩ := by
    simp [storeOp, hinit]
  have hstore_cl : cachePrefixCleared storageKey collectionKey
      (storeOp s storageKey collectionKey object) := by
    intro kv hkv
    rw [hstore_cache] at hkv
    exact mem_clear_not_prefixed _ _ kv hkv
  -- replaceAll on the original state
  have hrepl_cache : (replaceAllOp s storageKey collectionKey objects).cache =
      clearCacheByPattern (getCacheKey storageKey collectionKey none) s.cache := by
    simp [replaceAllOp, hinit]
  have hrepl_init : (replaceAllOp s storageKey collectionKey objects).initDone = true := by
    simp [replaceAllOp, hinit]
  have hrepl_tree : (replaceAllOp s storageKey collectionKey objects).tree =
      setColl s.tree collectionKey storageKey objects := by
    simp [replaceAllOp, hinit]
  have hrepl_cl : cachePrefixCleared storageKey collectionKey
      (replaceAllOp s storageKey collectionKey objects) := by
    intro kv hkv
    rw [hrepl_cache] at hkv
    exact mem_clear_not_prefixed _ _ kv hkv
  -- deleteById
  have hdel_state : (deleteByIdOp s storageKey collectionKey objectId now).2 =
      { replaceAllOp (getAllOp s storageKey collectionKey now).2.1 storageKey
          collectionKey
          (deleteById (getAllOp s storageKey collectionKey now).1 objectId).2 with
        cache := clearCacheByPattern (getCacheKey storageKey collectionKey none)
          (replaceAllOp (getAllOp s storageKey collectionKey now).2.1 storageKey
            collectionKey
            (deleteById (getAllOp s storageKey collectionKey now).1 objectId).2).cache } := by
    simp [deleteByIdOp, hinit, hdel]
  have hdel_init : (deleteByIdOp s storageKey collectionKey objectId now).2.initDone =
      true := by
    rw [hdel_state]
    simp [replaceAllOp, hinitg]
  have hdel_tree : (deleteByIdOp s storageKey collectionKey objectId now).2.tree =
      setColl (getAllOp s storageKey collectionKey now).2.1.tree collectionKey storageKey
        (deleteById (getAllOp s storageKey collectionKey now).1 objectId).2 := by
    rw [hdel_state]
    simp [replaceAllOp, hinitg]
  have hdel_cl : cachePrefixCleared storageKey collectionKey
      (deleteByIdOp s storageKey collectionKey objectId now).2 := by
    intro kv hkv
    rw [hdel_state] at hkv
    exact mem_clear_not_prefixed _ _ kv hkv
  -- storeUnique
  have hsu_shape :
      (storeUniqueOp s storageKey collectionKey object now).2.initDone = true ∧
      cachePrefixCleared storageKey collectionKey
        (storeUniqueOp s storageKey collectionKey object now).2 := by
    cases hf : jsFindIndex (fun item => item.id == object.id)
        (getAllOp s storageKey collectionKey now).1 with
    | some i =>
      have hsu_state : (storeUniqueOp s storageKey collectionKey object now).2 =
          { replaceAllOp (getAllOp s storageKey collectionKey now).2.1 storageKey
              collectionKey ((getAllOp s storageKey collectionKey now).1.set i object) with
            cache := clearCacheByPattern (getCacheKey storageKey collectionKey none)
              (replaceAllOp (getAllOp s storageKey collectionKey now).2.1 storageKey
                collectionKey
                ((getAllOp s storageKey collectionKey now).1.set i object)).cache } := by
        simp [storeUniqueOp, hinit, hf]
      constructor
      · rw [hsu_state]
        simp [replaceAllOp, hinitg]
      · intro kv hkv
        rw [hsu_state] at hkv
        exact mem_clear_not_prefixed _ _ kv hkv
    | none =>
      have hsu_state : (storeUniqueOp s storageKey collectionKey object now).2 =
          { (getAllOp s storageKey collectionKey now).2.1 with
            tree := applyWrite (getAllOp s storageKey collectionKey now).2.1.tree
              ⟨collectionKey, storageKey, object⟩
            cache := clearCacheByPattern (getCacheKey storageKey collectionKey none)
              (getAllOp s storageKey collectionKey now).2.1.cache } := by
        simp [storeUniqueOp, hinit, hf]
      constructor
      · rw [hsu_state]
        simpa using hinitg
      · intro kv hkv
        rw [hsu_state] at hkv
        exact mem_clear_not_prefixed _ _ kv hkv
  -- purgeStaleItems
  have hpurge_state : (purgeStaleItemsOp s storageKey collectionKey cutoff now).2 =
      replaceAllOp (getAllOp s storageKey collectionKey now).2.1 storageKey collectionKey
        (purgeStaleItems (getAllOp s storageKey collectionKey now).1 cutoff).2 := by
    simp [purgeStaleItemsOp, hinit, hpurge]
  have hpurge_init : (purgeStaleItemsOp s storageKey collectionKey cutoff now).2.initDone =
      true := by
    rw [hpurge_state]
    simp [replaceAllOp, hinitg]
  have hpurge_tree : (purgeStaleItemsOp s storageKey collectionKey cutoff now).2.tree =
      setColl (getAllOp s storageKey collectionKey now).2.1.tree collectionKey storageKey
        (purgeStaleItems (getAllOp s storageKey collectionKey now).1 cutoff).2 := by
    rw [hpurge_state]
    simp [replaceAllOp, hinitg]
  have hpurge_cl : cachePrefixCleared storageKey collectionKey
      (purgeStaleItemsOp s storageKey collectionKey cutoff now).2 := by
    intro kv hkv
    rw [hpurge_state] at hkv
    have : (purgeStaleItemsOp s storageKey collectionKey cutoff now).2.cache =
        clearCacheByPattern (getCacheKey storageKey collectionKey none)
          (getAllOp s storageKey collectionKey now).2.1.cache := by
      rw [hpurge_state]
      simp [replaceAllOp, hinitg]
    rw [hpurge_state] at this
    rw [this] at hkv
    exact mem_clear_not_prefixed _ _ kv hkv
  refine ⟨fun entityId => jsStartsWith_entity_key _ _ _, ?_, ?_, ?_, ?_, ?_, ?_, ?_, ?_, ?_⟩
  · exact ⟨hstore_cl, cleared_state_reads_tree _ _ _ now2 hstore_init hstore_cl⟩
  · exact ⟨hrepl_cl, cleared_state_reads_tree _ _ _ now2 hrepl_init hrepl_cl⟩
  · exact ⟨hdel_cl, cleared_state_reads_tree _ _ _ now2 hdel_init hdel_cl⟩
  · exact ⟨hsu_shape.2, cleared_state_reads_tree _ _ _ now2 hsu_shape.1 hsu_shape.2⟩
  · exact ⟨hpurge_cl, cleared_state_reads_tree _ _ _ now2 hpurge_init hpurge_cl⟩
  · rw [hstore_tree]
    simp [applyWrite, getColl_setColl_self]
  · rw [hrepl_tree, getColl_setColl_self]
  · rw [hdel_tree, getColl_setColl_self]
  · rw [hpurge_tree, getColl_setColl_self]

/-- C8 witness state: initialized, one record under ("g", "s"), and one
per-entity-id cache entry under the pair's prefix plus one unrelated
entry. -/
def c8State : RepoState :=
  { initDone := true
    config := defaultRepoConfig
    tree := [("g", [("s", [⟨"u1", "2024-01-01", 1⟩])])]
    cache := [("s:g:u1", { data := [], expiresAt := 100, accessCount := 1, lastAccessed := 0 }),
              ("x:y", { data := [], expiresAt := 100, accessCount := 1, lastAccessed := 0 })] }

/-- C8 witness: instantiate the invalidation/read-back facts on
`c8State` with storage key "s", collection key "g", a delete matching
id "u1" and a purge cutoff newer than the stored timestamp. -/
theorem mutations_invalidate_cache_prefix_witness :
    (c8State.initDone = true ∧
      (deleteById (getAllOp c8State "s" "g" 0).1 "u1").1 = true ∧
      0 < (purgeStaleItems (getAllOp c8State "s" "g" 0).1 "2024-06-01").1) ∧
    ((∀ entityId, jsStartsWith (getCacheKey "s" "g" (some entityId))
        (getCacheKey "s" "g" none) = true) ∧
    (cachePrefixCleared "s" "g" (storeOp c8State "s" "g" ⟨"u2", "2024-07-01", 2⟩) ∧
      nextReadMissesAndReflects "s" "g" 5
        (storeOp c8State "s" "g" ⟨"u2", "2024-07-01", 2⟩)) ∧
    (cachePrefixCleared "s" "g" (replaceAllOp c8State "s" "g" [⟨"u3", "", 3⟩]) ∧
      nextReadMissesAndReflects "s" "g" 5
        (replaceAllOp c8State "s" "g" [⟨"u3", "", 3⟩])) ∧
    (cachePrefixCleared "s" "g" (deleteByIdOp c8State "s" "g" "u1" 0).2 ∧
      nextReadMissesAndReflects "s" "g" 5 (deleteByIdOp c8State "s" "g" "u1" 0).2) ∧
    (cachePrefixCleared "s" "g" (storeUniqueOp c8State "s" "g" ⟨"u2", "2024-07-01", 2⟩ 0).2 ∧
      nextReadMissesAndReflects "s" "g" 5
        (storeUniqueOp c8State "s" "g" ⟨"u2", "2024-07-01", 2⟩ 0).2) ∧
    (cachePrefixCleared "s" "g" (purgeStaleItemsOp c8State "s" "g" "2024-06-01" 0).2 ∧
      nextReadMissesAndReflects "s" "g" 5
        (purgeStaleItemsOp c8State "s" "g" "2024-06-01" 0).2) ∧
    getColl (storeOp c8State "s" "g" ⟨"u2", "2024-07-01", 2⟩).tree "g" "s" =
      getColl c8State.tree "g" "s" ++ [⟨"u2", "2024-07-01", 2⟩] ∧
    getColl (replaceAllOp c8State "s" "g" [⟨"u3", "", 3⟩]).tree "g" "s" =
      [⟨"u3", "", 3⟩] ∧
    getColl (deleteByIdOp c8State "s" "g" "u1" 0).2.tree "g" "s" =
      (deleteById (getAllOp c8State "s" "g" 0).1 "u1").2 ∧
    getColl (purgeStaleItemsOp c8State "s" "g" "2024-06-01" 0).2.tree "g" "s" =
      (purgeStaleItems (getAllOp c8State "s" "g" 0).1 "2024-06-01").2) :=
  ⟨⟨rfl, by decide, by decide⟩,
   mutations_invalidate_cache_prefix c8State "s" "g" "u1" "2024-06-01"
     ⟨"u2", "2024-07-01", 2⟩ [⟨"u3", "", 3⟩] 0 5 rfl (by decide) (by decide)⟩

end Cordex
